import Mathlib

/-!
Shallow embedding of the Statistics-library repository (C++ headers under
`src/`), covering the binary transport (`BinFileIn`, `BinFileOut`), the
scalar-double converter (`CasinoBinConverter`), the generic `Reader` engine,
the output-side lazy open (`Writer`, `BinFileOut::open`, `CSVFileOut::open`),
`OutputManager::newReplication`, `InputManager::sortReplications` /
`loadBatch`, and the casino statistics classes (`getMean`,
`setupPresenters`).

Modelling conventions:
* A byte is a `Nat` (held below 256 by every producer in the model, matching
  `uint8_t`).
* A `double` is its 64-bit pattern, a `Nat` below `2 ^ 64`; claims here are
  about bit-exact transport, so no floating-point arithmetic is involved.
  Where `arma` computes means we abstract `double` arithmetic by exact
  rational arithmetic (`ℚ`).
* An `std::ifstream` that never seeks is a `ByteStream`: the bytes not yet
  consumed plus the `eofbit`/`failbit` state.  `istream::read(p, n)` extracts
  `min n remaining` bytes and sets `eofbit` and `failbit` together exactly
  when fewer than `n` bytes were available; extracting the last byte of the
  stream does not set `eofbit`.
* C++ exceptions are `Except Err`; each `Err` constructor corresponds to one
  `throw` site (its message is fixed by the source).  Calling a virtual
  member through a null pointer (undefined behaviour) is modelled by the
  distinguished outcome `Err.nullDereference`, which is *not* a raised
  `std::invalid_argument`.
-/

namespace StatLib

/-- One constructor per `throw` site (or distinguished outcome) in the
modelled sources. -/
inductive Err where
  /-- `BinFileIn::read`: "No file opened for reading" (`!inFile`, i.e. the
  stream's failbit or badbit is set). -/
  | noFileOpened
  /-- `BinFileIn::read`: "Failed to read data size" (failure that is not
  end-of-file while reading the 4-byte length field). -/
  | failedReadSize
  /-- `BinFileIn::read`: "Failed to read data content" (failure that is not
  end-of-file while reading the payload). -/
  | failedReadContent
  /-- `CasinoBinConverter::convert`: "Invalid data size for double
  conversion". -/
  | invalidDataSize
  /-- `CasinoBinConverter::convert`: "Expected count of 1 for single double
  conversion". -/
  | badCount
  /-- `Reader::read`: "End of file reached" (the only message containing the
  substring "End of file" that `Reader::load` tests for). -/
  | endOfFileReached
  /-- `Reader::load` / `Writer::write`: "File path is not set". -/
  | pathNotSet
  /-- `Reader::open` / `Writer::open` wrapper: "Failed to open file". -/
  | openFailed
  /-- `std::invalid_argument` (`InputManager::loadBatch`,
  `Statistics::setupPresenters`). -/
  | invalidArgument
  /-- `InputManager::loadBatch`: "Failed processing file: " + name. -/
  | processingFailed (name : String)
  /-- `OutputManager::newReplication`: "Failed to create directory". -/
  | createDirectoryFailed
  /-- Undefined behaviour: a virtual call through a null `PresenterManager*`.
  Distinct from every raised exception, in particular from
  `invalidArgument`. -/
  | nullDereference
deriving DecidableEq, Repr

/-! ## Little-endian byte encoding

`BinFileOut::write` emits a 4-byte little-endian length; `BinFileIn::read`
reassembles it with `dataSize |= byte << (i * 8)`.  `CasinoBinConverter`
copies a `uint32_t` count and the 8 bytes of a `double` with `memcpy`
(native little-endian order on the targeted platform). -/

/-- The `k` little-endian bytes of `n` (each below 256). -/
def toLeBytes : Nat → Nat → List Nat
  | 0, _ => []
  | k + 1, n => n % 256 :: toLeBytes k (n / 256)

/-- Reassemble a little-endian byte list, exactly as the
`dataSize |= byte << (i * 8)` loop does. -/
def fromLeBytes : List Nat → Nat
  | [] => 0
  | b :: r => b + 256 * fromLeBytes r

theorem toLeBytes_length (k n : Nat) : (toLeBytes k n).length = k := by
  induction k generalizing n with
  | zero => rfl
  | succ k ih => simp [toLeBytes, ih]

theorem fromLeBytes_toLeBytes (k n : Nat) :
    fromLeBytes (toLeBytes k n) = n % 2 ^ (8 * k) := by
  induction k generalizing n with
  | zero => simp [toLeBytes, fromLeBytes, Nat.mod_one]
  | succ k ih =>
      simp only [toLeBytes, fromLeBytes, ih]
      have h : (2 : Nat) ^ (8 * (k + 1)) = 256 * 2 ^ (8 * k) := by
        rw [Nat.mul_succ, Nat.pow_add]; ring
      rw [h, Nat.mod_mul]

/-! ## The binary input transport (`BinFileIn`) -/

/-- The observable state of an `std::ifstream` that is only ever read
sequentially: the bytes not yet consumed, and the `eofbit` / `failbit`
flags. -/
structure ByteStream where
  remaining : List Nat
  eofbit : Bool
  failbit : Bool
deriving DecidableEq, Repr

/-- `BinFileIn::read` (src/lib/include/BinFileIn.h, lines 53-88).

* `if (!inFile) throw "No file opened for reading"` — `!stream` tests
  `failbit || badbit`.
* A loop reads the 4 length bytes one at a time; after each
  `inFile.read(&byte, 1)` it first tests `eof()` and returns `{}` (the empty
  block), then tests `fail()` and throws "Failed to read data size".  In the
  model a single-byte read fails only by running off the end of the stream,
  which sets `eofbit` and `failbit` together, so the `eof()` branch fires
  and the partial length bytes are silently consumed.
* `buffer.resize(dataSize)` zero-fills, then `inFile.read(buffer.data(),
  dataSize)` stores the available bytes at the front; a short read sets
  `eofbit` and `failbit`, so the final `if (fail() && !eof()) throw` does
  not fire and the zero-padded buffer is returned. -/
def binFileInRead (s : ByteStream) : Except Err (List Nat) × ByteStream :=
  if s.failbit then (.error .noFileOpened, s)
  else
    match s.remaining with
    | b0 :: b1 :: b2 :: b3 :: rest =>
        let dataSize := fromLeBytes [b0, b1, b2, b3]
        let payload := rest.take dataSize
        let buffer := payload ++ List.replicate (dataSize - payload.length) 0
        if rest.length < dataSize then
          (.ok buffer, ⟨[], true, true⟩)
        else
          (.ok buffer, ⟨rest.drop dataSize, s.eofbit, s.failbit⟩)
    | _ => (.ok [], ⟨[], true, true⟩)

/-! ## The scalar-double converter (`CasinoBinConverter`) -/

/-- `CasinoBinConverter::convert(const double&)`
(src/include/CasinoBin.h, lines 23-36): a 12-byte unit holding the
`uint32_t` count 1 followed by the 8 bytes of the double. -/
def casinoBinConvertToBytes (d : Nat) : List Nat :=
  toLeBytes 4 1 ++ toLeBytes 8 d

/-- `CasinoBinConverter::convert(const std::vector<uint8_t>&)`
(src/include/CasinoBin.h, lines 44-66): requires at least 12 bytes and a
count equal to 1, then reads the 8 double bytes at offset 4. -/
def casinoBinConvertFromBytes (data : List Nat) : Except Err Nat :=
  if data.length < 12 then .error .invalidDataSize
  else if fromLeBytes (data.take 4) ≠ 1 then .error .badCount
  else .ok (fromLeBytes ((data.drop 4).take 8))

/-! ## The binary output transport (`BinFileOut`) and the writer -/

/-- `BinFileOut::write` (src/lib/include/BinFileOut.h, lines 53-67): append
the 4 little-endian bytes of `static_cast<uint32_t>(data.size())`, then the
data, to the file content at the current (sequential) write position. -/
def binFileOutWrite (fileContent : List Nat) (data : List Nat) : List Nat :=
  fileContent ++ toLeBytes 4 (data.length % 2 ^ 32) ++ data

/-- `Writer::write(const Range&)` instantiated at `CasinoBinWriter`
(src/lib/include/Writer.h, lines 143-158): each double is converted by
`CasinoBinConverter` and handed to `BinFileOut::write` in order, starting
from the given already-written content. -/
def casinoBinWriterWriteSeq (fileContent : List Nat) : List Nat → List Nat
  | [] => fileContent
  | d :: ds =>
      casinoBinWriterWriteSeq (binFileOutWrite fileContent (casinoBinConvertToBytes d)) ds

/-- `BinFileOut::open` / `CSVFileOut::open` pass
`std::ios::binary | std::ios::in` to an `std::ofstream`, whose `open` always
adds `std::ios::out`.  The file content after the writer finishes is
therefore the newly written bytes laid over the pre-existing content from
position 0, with no truncation. -/
def fileAfterWrite (oldContent newBytes : List Nat) : List Nat :=
  newBytes ++ oldContent.drop newBytes.length

/-! ## The generic reader engine (`Reader`), instantiated at
`CasinoBinReader = Reader<double, CasinoBinConverter, BinFileIn>` -/

/-- `Reader::read` (src/lib/include/Reader.h, lines 130-165), for an already
open reader: calls `BinFileIn::read`, treats an empty block as the
end-of-stream signal (throwing "End of file reached"), otherwise converts
the block with `CasinoBinConverter`.  Every exception is re-thrown wrapped
in "Failed to read/convert data: ..."; only the end-of-stream one contains
the substring "End of file" that `load` later inspects, so the wrapper is
dropped in the model and the `Err` constructor kept. -/
def readerRead (s : ByteStream) : Except Err Nat × ByteStream :=
  match binFileInRead s with
  | (.error e, s') => (.error e, s')
  | (.ok fileData, s') =>
      if fileData.isEmpty then (.error .endOfFileReached, s')
      else
        match casinoBinConvertFromBytes fileData with
        | .ok v => (.ok v, s')
        | .error e => (.error e, s')

/-- The `while (true)` loop of `Reader::load` (src/lib/include/Reader.h,
lines 188-215): each iteration calls `read()` and appends its result; any
`std::runtime_error` breaks the loop (the "End of file" message and every
other error alike — the two catch branches differ only in logging), keeping
the data gathered so far.  The loop is given fuel; `readerLoad` supplies
more fuel than the stream could ever consume, so the fuel-exhaustion branch
is never taken there. -/
def loadAux : Nat → ByteStream → List Nat → List Nat × ByteStream
  | 0, s, acc => (acc, s)
  | fuel + 1, s, acc =>
      match readerRead s with
      | (.ok d, s') => loadAux fuel s' (acc ++ [d])
      | (.error _, s') => (acc, s')

/-- The state of a `Reader` that matters to `load`: whether a path is
configured (`path` nonempty), whether the transport is open, and the
buffered data. -/
structure ReaderState where
  pathSet : Bool
  isOpen : Bool
  data : List Nat
deriving DecidableEq, Repr

/-- `Reader::load` (src/lib/include/Reader.h, lines 175-218): if not open it
throws when no path is configured and propagates an open failure (`openOk`
is whether `open(path)` succeeds); then `flush()` discards the previous
buffer, the loop runs on the opened stream `s`, and `close()` marks the
reader closed before returning. -/
def readerLoad (r : ReaderState) (openOk : Bool) (s : ByteStream) :
    Except Err (ReaderState × ByteStream) :=
  if r.isOpen = false ∧ r.pathSet = false then .error .pathNotSet
  else if r.isOpen = false ∧ openOk = false then .error .openFailed
  else
    let out := loadAux (s.remaining.length + 1) s []
    .ok ({ r with isOpen := false, data := out.1 }, out.2)

/-- Specification of the read loop, in the spec's words: repeatedly read and
decode; a successful read appends its value in file order; the first
end-of-stream or other error terminates the loop with the data gathered so
far. -/
inductive ReadsTo : ByteStream → List Nat → ByteStream → Prop where
  | stop (s s' : ByteStream) (e : Err) (h : readerRead s = (.error e, s')) :
      ReadsTo s [] s'
  | step (s s' s'' : ByteStream) (d : Nat) (ds : List Nat)
      (h : readerRead s = (.ok d, s')) (ht : ReadsTo s' ds s'') :
      ReadsTo s (d :: ds) s''

/-- A successful `BinFileIn::read` that delivers a nonempty block consumed
at least the 4 length-field bytes. -/
theorem binFileInRead_ok_shrink {s s' : ByteStream} {buf : List Nat}
    (h : binFileInRead s = (.ok buf, s')) (hne : buf ≠ []) :
    s'.remaining.length + 4 ≤ s.remaining.length := by
  unfold binFileInRead at h
  split at h
  · exact absurd h (by simp)
  · split at h
    next b0 b1 b2 b3 rest heq =>
      dsimp only at h
      split at h
      · simp only [Prod.mk.injEq, Except.ok.injEq] at h
        rw [← h.2, heq]
        simp
      · simp only [Prod.mk.injEq, Except.ok.injEq] at h
        rw [← h.2, heq]
        simp only [List.length_drop, List.length_cons]
        omega
    next heq2 =>
      simp only [Prod.mk.injEq, Except.ok.injEq] at h
      exact absurd h.1.symm hne

/-- A successful `Reader::read` consumes at least the 4 length-field
bytes. -/
theorem readerRead_ok_shrink {s s' : ByteStream} {d : Nat}
    (h : readerRead s = (.ok d, s')) :
    s'.remaining.length + 4 ≤ s.remaining.length := by
  unfold readerRead at h
  cases hb : binFileInRead s with
  | mk r s1 =>
      rw [hb] at h
      cases r with
      | error e => simp at h
      | ok fileData =>
          by_cases he : fileData.isEmpty
          · simp [he] at h
          · simp only [he, if_false, Bool.false_eq_true] at h
            cases hc : casinoBinConvertFromBytes fileData with
            | ok v =>
                rw [hc] at h
                simp only [Prod.mk.injEq, Except.ok.injEq] at h
                rw [← h.2]
                exact binFileInRead_ok_shrink hb (by simpa using he)
            | error e => rw [hc] at h; simp at h

/-- With more fuel than bytes, the load loop runs to its natural stop: it
returns the accumulated data extended by exactly the `ReadsTo`-prefix of the
stream. -/
theorem loadAux_readsTo :
    ∀ (fuel : Nat) (s : ByteStream) (acc : List Nat),
      s.remaining.length < fuel →
      ∃ ds s', loadAux fuel s acc = (acc ++ ds, s') ∧ ReadsTo s ds s' := by
  intro fuel
  induction fuel with
  | zero => intro s acc hlt; omega
  | succ fuel ih =>
      intro s acc hlt
      cases hr : readerRead s with
      | mk r s1 =>
          cases r with
          | ok d =>
              have hshrink := readerRead_ok_shrink hr
              obtain ⟨ds, s', heq, ht⟩ := ih s1 (acc ++ [d]) (by omega)
              refine ⟨d :: ds, s', ?_, ReadsTo.step s s1 s' d ds hr ht⟩
              simp only [loadAux, hr, heq, List.append_assoc, List.singleton_append]
          | error e =>
              exact ⟨[], s1, by simp only [loadAux, hr, List.append_nil],
                ReadsTo.stop s s1 e hr⟩

/-- Claim C4 (as stated) is false: with 2 of the 4 length-field bytes
available before end-of-stream, `BinFileIn::read` does not raise — it
consumes both bytes, hits end-of-file on the third single-byte read, and
returns the empty block (the clean-EOF signal), leaving `eofbit` and
`failbit` set. -/
theorem C4_counterexample :
    binFileInRead ⟨[7, 7], false, false⟩ = (.ok [], ⟨[], true, true⟩) := rfl

/-- Helper: `BinFileIn::read` on an open stream with fewer than 4 bytes
left returns the empty block and exhausts the stream. -/
theorem binFileInRead_eof_short (s : ByteStream)
    (hopen : s.failbit = false) (hshort : s.remaining.length < 4) :
    binFileInRead s = (.ok [], ⟨[], true, true⟩) := by
  unfold binFileInRead
  rw [hopen]
  simp only [Bool.false_eq_true, if_false]
  match hrem : s.remaining with
  | [] => rfl
  | [b0] => rfl
  | [b0, b1] => rfl
  | [b0, b1, b2] => rfl
  | b0 :: b1 :: b2 :: b3 :: rest =>
      rw [hrem] at hshort
      simp only [List.length_cons] at hshort
      omega

/-- Claim C4, amended: for every open binary transport whose stream has
fewer than 4 bytes left before end-of-stream — zero or 1 to 3 length-field
bytes alike — `read()` returns the empty block rather than raising, and
leaves the stream with `eofbit` and `failbit` set (so a further `read()`
raises).  The "Failed to read data size" error would require a stream
failure that is not end-of-file, which a regular file read cannot
produce. -/
theorem C4_eof_during_length (s : ByteStream)
    (hopen : s.failbit = false) (hshort : s.remaining.length < 4) :
    binFileInRead s = (.ok [], ⟨[], true, true⟩) :=
  binFileInRead_eof_short s hopen hshort

/-- Witness for C4_eof_during_length at the concrete 2-byte stream. -/
theorem C4_eof_during_length_witness :
    binFileInRead ⟨[7, 7], false, false⟩ = (.ok [], ⟨[], true, true⟩) :=
  C4_eof_during_length ⟨[7, 7], false, false⟩ (by decide) (by decide)

/-- Claim C5 (as stated) is false: with a complete length field announcing
12 payload bytes but only 1 byte remaining, `BinFileIn::read` does not
raise — the short payload read sets `eofbit` together with `failbit`, so
the `fail() && !eof()` guard does not fire, and the zero-padded block of
the declared length is returned. -/
theorem C5_counterexample :
    binFileInRead ⟨[12, 0, 0, 0, 9], false, false⟩ =
      (.ok [9, 0, 0, 0, 0, 0, 0, 0, 0, 0, 0, 0], ⟨[], true, true⟩) := rfl

/-- Claim C5, amended: when the 4-byte length field is complete but fewer
than `length` payload bytes remain before end-of-stream, `read()` returns a
block of the declared length whose missing tail is zero-filled (from
`buffer.resize`), leaving `eofbit` and `failbit` set, instead of raising;
the "Failed to read data content" error would require a failure that is not
end-of-file. -/
theorem C5_short_payload (b0 b1 b2 b3 : Nat) (rest : List Nat)
    (hshort : rest.length < fromLeBytes [b0, b1, b2, b3]) :
    binFileInRead ⟨b0 :: b1 :: b2 :: b3 :: rest, false, false⟩ =
      (.ok (rest ++ List.replicate (fromLeBytes [b0, b1, b2, b3] - rest.length) 0),
        ⟨[], true, true⟩) := by
  unfold binFileInRead
  simp only [Bool.false_eq_true, if_false]
  rw [List.take_of_length_le (le_of_lt hshort)]
  simp only [hshort, if_true]

/-- Witness for C5_short_payload at the concrete truncated frame. -/
theorem C5_short_payload_witness :
    binFileInRead ⟨[12, 0, 0, 0, 9], false, false⟩ =
      (.ok ([9] ++ List.replicate (fromLeBytes [12, 0, 0, 0] - 1) 0),
        ⟨[], true, true⟩) :=
  C5_short_payload 12 0 0 0 [9] (by decide)

/-- Claim C6: `Reader::load()` raises only when no path is configured or the
open itself fails; once reading begins it never raises — the prior buffer is
discarded, each successfully decoded unit is appended in file order, the
loop stops at end-of-stream or at the first other error keeping the partial
data (`ReadsTo`), and the transport is closed (`isOpen = false`) before
returning. -/
theorem C6_load_behaviour (pathSet isOpen : Bool) (pri : List Nat)
    (openOk : Bool) (s : ByteStream) :
    (isOpen = false → pathSet = false →
       readerLoad ⟨pathSet, isOpen, pri⟩ openOk s = .error .pathNotSet) ∧
    (isOpen = false → pathSet = true → openOk = false →
       readerLoad ⟨pathSet, isOpen, pri⟩ openOk s = .error .openFailed) ∧
    (isOpen = true ∨ (pathSet = true ∧ openOk = true) →
       ∃ ds s', readerLoad ⟨pathSet, isOpen, pri⟩ openOk s =
           .ok (⟨pathSet, false, ds⟩, s') ∧ ReadsTo s ds s') ∧
    readerLoad ⟨pathSet, isOpen, pri⟩ openOk s =
      readerLoad ⟨pathSet, isOpen, []⟩ openOk s := by
  refine ⟨?_, ?_, ?_, ?_⟩
  · intro h1 h2
    simp [readerLoad, h1, h2]
  · intro h1 h2 h3
    simp [readerLoad, h1, h2, h3]
  · intro hcfg
    obtain ⟨ds, s', heq, ht⟩ :=
      loadAux_readsTo (s.remaining.length + 1) s [] (by omega)
    refine ⟨ds, s', ?_, ht⟩
    rcases hcfg with hopen | ⟨hp, ho⟩
    · simp [readerLoad, hopen, heq]
    · subst hp ho
      rcases isOpen with _ | _ <;> simp [readerLoad, heq]
  · rfl

/-- Witness for C6_load_behaviour: a configured, successfully opening reader
with a nonempty prior buffer over the empty stream. -/
theorem C6_load_behaviour_witness :
    ∃ ds s', readerLoad ⟨true, false, [1]⟩ true ⟨[], false, false⟩ =
        .ok (⟨true, false, ds⟩, s') ∧ ReadsTo ⟨[], false, false⟩ ds s' :=
  (C6_load_behaviour true false [1] true ⟨[], false, false⟩).2.2.1
    (Or.inr ⟨rfl, rfl⟩)

/-! ## The binary round trip (claim C1) -/

theorem casinoBinWriterWriteSeq_shift (ds : List Nat) (file : List Nat) :
    casinoBinWriterWriteSeq file ds = file ++ casinoBinWriterWriteSeq [] ds := by
  induction ds generalizing file with
  | nil => simp [casinoBinWriterWriteSeq]
  | cons d ds ih =>
      simp only [casinoBinWriterWriteSeq]
      rw [ih, ih (binFileOutWrite [] (casinoBinConvertToBytes d))]
      simp [binFileOutWrite, List.append_assoc]

theorem casinoBinWriterWriteSeq_length (ds : List Nat) :
    (casinoBinWriterWriteSeq [] ds).length = 16 * ds.length := by
  induction ds with
  | nil => rfl
  | cons d ds ih =>
      rw [casinoBinWriterWriteSeq, casinoBinWriterWriteSeq_shift]
      simp only [List.length_append, ih, binFileOutWrite, List.length_cons,
        casinoBinConvertToBytes, toLeBytes_length, List.length_nil]
      omega

/-- The bytes `BinFileOut::write` appends for one converted double: the
length field 12 followed by the 12-byte converter unit. -/
theorem binFileOutWrite_frame (d : Nat) :
    binFileOutWrite [] (casinoBinConvertToBytes d) =
      12 :: 0 :: 0 :: 0 :: (toLeBytes 4 1 ++ toLeBytes 8 d) := by
  have hlen : (casinoBinConvertToBytes d).length = 12 := by
    simp [casinoBinConvertToBytes, toLeBytes_length]
  rw [binFileOutWrite, hlen]
  rfl

/-- Reading one well-formed frame from the head of an open stream yields the
double back, bit-exactly, and leaves the rest of the stream untouched. -/
theorem readerRead_frame (d : Nat) (hd : d < 2 ^ 64) (R : List Nat) :
    readerRead ⟨binFileOutWrite [] (casinoBinConvertToBytes d) ++ R,
        false, false⟩ =
      (.ok d, ⟨R, false, false⟩) := by
  have henc : (casinoBinConvertToBytes d).length = 12 := by
    simp [casinoBinConvertToBytes, toLeBytes_length]
  have hrest : ((toLeBytes 4 1 ++ toLeBytes 8 d) ++ R).length =
      12 + R.length := by
    simp [toLeBytes_length]
    omega
  have htake : ((toLeBytes 4 1 ++ toLeBytes 8 d) ++ R).take 12 =
      toLeBytes 4 1 ++ toLeBytes 8 d := by
    rw [show (12 : Nat) = (toLeBytes 4 1 ++ toLeBytes 8 d).length by
      simp [toLeBytes_length]]
    exact List.take_left _ _
  have hdrop : ((toLeBytes 4 1 ++ toLeBytes 8 d) ++ R).drop 12 = R := by
    rw [show (12 : Nat) = (toLeBytes 4 1 ++ toLeBytes 8 d).length by
      simp [toLeBytes_length]]
    exact List.drop_left _ _
  rw [binFileOutWrite_frame]
  unfold readerRead binFileInRead
  simp only [Bool.false_eq_true, if_false, List.cons_append]
  have hsize : fromLeBytes [12, 0, 0, 0] = 12 := by
    simp [fromLeBytes]
  simp only [hsize]
  rw [htake]
  have hnoshort : ¬ ((toLeBytes 4 1 ++ toLeBytes 8 d) ++ R).length < 12 := by
    rw [hrest]; omega
  simp only [hnoshort, if_false]
  have hlen12 : (toLeBytes 4 1 ++ toLeBytes 8 d).length = 12 := by
    simp [toLeBytes_length]
  rw [hlen12]
  simp only [Nat.sub_self, List.replicate_zero, List.append_nil, hdrop]
  have hne : (toLeBytes 4 1 ++ toLeBytes 8 d).isEmpty = false := rfl
  simp only [hne, Bool.false_eq_true, if_false]
  unfold casinoBinConvertFromBytes
  simp only [hlen12, Nat.lt_irrefl, if_false]
  have hcount : ((toLeBytes 4 1 ++ toLeBytes 8 d).take 4) = toLeBytes 4 1 := by
    rw [show (4 : Nat) = (toLeBytes 4 1).length by simp [toLeBytes_length]]
    exact List.take_left _ _
  have hdbytes : ((toLeBytes 4 1 ++ toLeBytes 8 d).drop 4) = toLeBytes 8 d := by
    rw [show (4 : Nat) = (toLeBytes 4 1).length by simp [toLeBytes_length]]
    exact List.drop_left _ _
  rw [hcount, hdbytes]
  have h1 : fromLeBytes (toLeBytes 4 1) = 1 := by
    rw [fromLeBytes_toLeBytes]; norm_num
  have h8 : (toLeBytes 8 d).take 8 = toLeBytes 8 d :=
    List.take_of_length_le (by simp [toLeBytes_length])
  rw [h8, h1]
  simp only [ne_eq, not_true_eq_false, if_false, ite_false]
  rw [fromLeBytes_toLeBytes]
  rw [Nat.mod_eq_of_lt (by norm_num at hd ⊢; omega)]

/-- The load loop over the bytes written for `ds` (with up to 3 stray bytes
after them — a stray tail shorter than a length field is absorbed by the
clean-EOF return) recovers exactly `ds`. -/
theorem loadAux_writeSeq (ds : List Nat) :
    ∀ (fuel : Nat) (acc tail : List Nat),
      (∀ d ∈ ds, d < 2 ^ 64) → tail.length < 4 → ds.length < fuel →
      loadAux fuel ⟨casinoBinWriterWriteSeq [] ds ++ tail, false, false⟩ acc =
        (acc ++ ds, ⟨[], true, true⟩) := by
  induction ds with
  | nil =>
      intro fuel acc tail hall htail hfuel
      obtain ⟨fuel, rfl⟩ : ∃ f, fuel = f + 1 := ⟨fuel - 1, by omega⟩
      have hread : readerRead ⟨casinoBinWriterWriteSeq [] [] ++ tail,
          false, false⟩ = (.error .endOfFileReached, ⟨[], true, true⟩) := by
        unfold readerRead
        rw [binFileInRead_eof_short _ rfl (by simpa [casinoBinWriterWriteSeq]
          using htail)]
        rfl
      rw [loadAux, hread]
      simp
  | cons d ds ih =>
      intro fuel acc tail hall htail hfuel
      obtain ⟨fuel, rfl⟩ : ∃ f, fuel = f + 1 := ⟨fuel - 1, by omega⟩
      have hexp : casinoBinWriterWriteSeq [] (d :: ds) ++ tail =
          binFileOutWrite [] (casinoBinConvertToBytes d) ++
            (casinoBinWriterWriteSeq [] ds ++ tail) := by
        rw [casinoBinWriterWriteSeq, casinoBinWriterWriteSeq_shift,
          List.append_assoc]
      rw [hexp, loadAux,
        readerRead_frame d (hall d (List.mem_cons_self d ds)) _]
      dsimp only
      rw [ih fuel (acc ++ [d]) tail
        (fun x hx => hall x (List.mem_cons_of_mem d hx)) htail (by
          simp only [List.length_cons] at hfuel; omega)]
      simp

/-- Claim C1 (as stated) is false: the output transports open their target
without truncation, so bytes of a longer pre-existing file survive past the
newly written data.  Writing the one-double sequence `[7]` over a file that
previously held two frames (doubles `5, 5`) leaves the second old frame in
place, and reading the file back yields `[7, 5]`, not `[7]`. -/
theorem C1_counterexample :
    readerLoad ⟨true, false, []⟩ true
        ⟨fileAfterWrite (casinoBinWriterWriteSeq [] [5, 5])
          (casinoBinWriterWriteSeq [] [7]), false, false⟩ =
      .ok (⟨true, false, [7, 5]⟩, ⟨[], true, true⟩) ∧
    [7, 5] ≠ [7] := ⟨rfl, by decide⟩

/-- Claim C1, amended: writing any finite sequence of doubles with the
binary writer and reading the file back through `Reader::load` yields the
identical sequence bit-exactly, provided both transports open successfully
*and* the target file's pre-existing content is no longer than the bytes
written (in particular, an initially empty file); the reader's prior buffer
is irrelevant. -/
theorem C1_binary_roundtrip (ds oldContent pri : List Nat)
    (hall : ∀ d ∈ ds, d < 2 ^ 64)
    (hold : oldContent.length ≤ (casinoBinWriterWriteSeq [] ds).length) :
    readerLoad ⟨true, false, pri⟩ true
        ⟨fileAfterWrite oldContent (casinoBinWriterWriteSeq [] ds),
          false, false⟩ =
      .ok (⟨true, false, ds⟩, ⟨[], true, true⟩) := by
  have hdrop : oldContent.drop (casinoBinWriterWriteSeq [] ds).length = [] :=
    List.drop_eq_nil_of_le hold
  have hfile : fileAfterWrite oldContent (casinoBinWriterWriteSeq [] ds) =
      casinoBinWriterWriteSeq [] ds ++ [] := by
    rw [fileAfterWrite, hdrop]
  rw [hfile]
  unfold readerLoad
  simp only [Bool.true_eq_false, and_false, false_and, if_false,
    and_self]
  rw [loadAux_writeSeq ds _ [] [] hall (by simp) (by
    simp only [List.length_append, casinoBinWriterWriteSeq_length,
      List.length_nil]
    omega)]
  rfl

/-- Witness for C1_binary_roundtrip: the two-double sequence
`[3, 2 ^ 63 + 7]` written into an initially empty file reads back
unchanged. -/
theorem C1_binary_roundtrip_witness :
    readerLoad ⟨true, false, []⟩ true
        ⟨fileAfterWrite [] (casinoBinWriterWriteSeq [] [3, 2 ^ 63 + 7]),
          false, false⟩ =
      .ok (⟨true, false, [3, 2 ^ 63 + 7]⟩, ⟨[], true, true⟩) :=
  C1_binary_roundtrip [3, 2 ^ 63 + 7] [] []
    (by
      intro x hx
      simp only [List.mem_cons, List.mem_singleton, List.not_mem_nil,
        or_false] at hx
      rcases hx with h | h <;> subst h <;> norm_num)
    (by simp)

/-! ## Output-side open semantics (claim C3)

`BinFileOut::open` (src/lib/include/BinFileOut.h, lines 24-32) and
`CSVFileOut::open` (src/lib/include/CSVFileOut.h, lines 27-35) both call
`outFile.open(file.data(), std::ios::binary | std::ios::in)` on an
`std::ofstream`, whose `open` always ors in `std::ios::out`. -/

/-- The `std::ios_base::openmode` flags that decide whether an open can
create the file (`binary` is irrelevant to that question and omitted). -/
structure IosOpenMode where
  inFlag : Bool
  outFlag : Bool
  truncFlag : Bool
  appFlag : Bool
deriving DecidableEq, Repr

/-- The mode both output transports hand to `std::ofstream::open`, after the
`ofstream` overload adds `out`: `in | out` (binary). -/
def fileOutOpenMode : IosOpenMode :=
  { inFlag := true, outFlag := true, truncFlag := false, appFlag := false }

/-- The C++ stdio-equivalence table for `filebuf::open`: modes containing
`app` map to the appending `"a"` family and create the file; modes
containing `trunc` map to the `"w"` family and create it; plain `out` maps
to `"w"` and creates it; but `out | in` (without `trunc` or `app`) maps to
`"r+"` and `in` alone to `"r"`, both of which require the file to exist
already. -/
def openRequiresExistingFile (m : IosOpenMode) : Bool :=
  if m.appFlag then false
  else if m.truncFlag then false
  else if m.inFlag && m.outFlag then true
  else if m.inFlag then true
  else false

/-- Whether `filebuf::open` succeeds, as a function of the mode and of
whether the target file exists (no permission or other OS failures are
modelled). -/
def fileOpenSucceeds (m : IosOpenMode) (fileExists : Bool) : Bool :=
  !openRequiresExistingFile m || fileExists

/-- `BinFileOut::open`: throws "Failed to open file" when the `ofstream`
ends up in a failed state after `open`. -/
def binFileOutOpen (fileExists : Bool) : Except Err Unit :=
  if fileOpenSucceeds fileOutOpenMode fileExists then .ok () else .error .openFailed

/-- `CSVFileOut::open`: same mode, same failure behaviour. -/
def csvFileOutOpen (fileExists : Bool) : Except Err Unit :=
  if fileOpenSucceeds fileOutOpenMode fileExists then .ok () else .error .openFailed

/-- `Writer::write(const T&)` (src/lib/include/Writer.h, lines 119-131) for
a not-yet-open binary writer: throws "File path is not set" when the path is
empty, otherwise performs the lazy `open(path)`, whose failure propagates as
a runtime error before any byte is written. -/
def writerFirstWrite (pathSet fileExists : Bool) : Except Err Unit :=
  if pathSet = false then .error .pathNotSet
  else
    match binFileOutOpen fileExists with
    | .error _ => .error .openFailed
    | .ok _ => .ok ()

/-- Claim C3: both output transports pass `std::ios::in` to their
`std::ofstream`, so the effective mode `in | out` requires the target file
to exist; opening a non-existent file fails, opening an existing one
succeeds, and the first `Writer::write` into a fresh (empty) replication
directory raises the open failure instead of creating the channel file. -/
theorem C3_open_requires_existing :
    fileOutOpenMode.inFlag = true ∧
    openRequiresExistingFile fileOutOpenMode = true ∧
    binFileOutOpen false = .error .openFailed ∧
    csvFileOutOpen false = .error .openFailed ∧
    binFileOutOpen true = .ok () ∧
    csvFileOutOpen true = .ok () ∧
    writerFirstWrite true false = .error .openFailed := by
  refine ⟨rfl, rfl, rfl, rfl, rfl, rfl, rfl⟩

/-! ## `OutputManager::newReplication` (claim C7) -/

/-- The `OutputManager` state that `newReplication` touches
(src/lib/include/OutputManager.h): the prefix (`replicationName`), the
derived current name, the counter (initialised to 1), and the size of the
writer set.  `init()` is subclass-defined and abstracted by the number of
writers it registers. -/
structure OutputManagerState where
  replicationName : String
  currentReplicationName : String
  counter : Nat
  writerCount : Nat
deriving DecidableEq, Repr

/-- A fresh `OutputManager` with prefix `name` set via `setName`. -/
def initOutputManager (name : String) : OutputManagerState :=
  { replicationName := name, currentReplicationName := "", counter := 1,
    writerCount := 0 }

/-- `OutputManager::newReplication` (src/lib/include/OutputManager.h, lines
183-201): close and discard the writer set, set
`currentReplicationName := getName() + to_string(counter)`, increment the
counter, then create the directory unless it already exists — throwing if
creation fails (with the name already set and the counter already
incremented) — and finally run `init()`.  `dirExists` and `createOk` are the
filesystem's answers for this call; `initWriters` is how many writers
`init()` registers. -/
def newReplication (st : OutputManagerState) (dirExists createOk : Bool)
    (initWriters : Nat) : Except Err Unit × OutputManagerState :=
  let st1 := { st with
                writerCount := 0,
                currentReplicationName := st.replicationName ++ toString st.counter,
                counter := st.counter + 1 }
  if dirExists = false ∧ createOk = false then
    (.error .createDirectoryFailed, st1)
  else
    (.ok (), { st1 with writerCount := initWriters })

/-- The replication names produced by consecutive `newReplication` calls,
one filesystem oracle `(dirExists, createOk)` per call. -/
def newReplicationNames (st : OutputManagerState) :
    List (Bool × Bool) → List String
  | [] => []
  | o :: os =>
      let r := newReplication st o.1 o.2 5
      r.2.currentReplicationName :: newReplicationNames r.2 os

theorem newReplicationNames_of_counter (os : List (Bool × Bool)) :
    ∀ st : OutputManagerState,
      newReplicationNames st os =
        (List.range os.length).map
          (fun i => st.replicationName ++ toString (st.counter + i)) := by
  induction os with
  | nil => intro st; rfl
  | cons o os ih =>
      intro st
      have hname : (newReplication st o.1 o.2 5).2.currentReplicationName =
          st.replicationName ++ toString st.counter := by
        by_cases h : o.1 = false ∧ o.2 = false <;> simp [newReplication, h]
      have hrec : (newReplication st o.1 o.2 5).2.replicationName =
            st.replicationName ∧
          (newReplication st o.1 o.2 5).2.counter = st.counter + 1 := by
        by_cases h : o.1 = false ∧ o.2 = false <;> simp [newReplication, h]
      rw [newReplicationNames, hname, ih, hrec.1, hrec.2]
      simp only [List.length_cons, List.range_succ_eq_map, List.map_cons,
        List.map_map, Nat.add_zero, List.cons.injEq]
      refine ⟨trivial, ?_⟩
      apply List.map_congr_left
      intro i _
      simp only [Function.comp_apply]
      congr 2
      omega

/-- Claim C7: for an `OutputManager` with prefix `name`, the `i`-th
`newReplication` call (counting from 1) sets the current replication name to
`name ++ toString i`, whatever the filesystem answered on earlier calls —
directories already existing, being created, or creation failing never
advance or rewind the counter differently, so `n` calls yield
`name1 .. namen` with no gap or reuse. -/
theorem C7_monotonic_naming (name : String) (os : List (Bool × Bool)) :
    newReplicationNames (initOutputManager name) os =
      (List.range os.length).map (fun i => name ++ toString (i + 1)) := by
  rw [newReplicationNames_of_counter]
  apply List.map_congr_left
  intro i _
  dsimp only [initOutputManager]
  rw [Nat.add_comm 1 i]

/-! ## `InputManager` discovery: trailing number extraction, sorting
(claim C2) and batch loading (claim C9) -/

/-- The trailing maximal run of digits of a name:
`folderName.substr(folderName.find_last_not_of("0123456789") + 1)`. -/
def trailingDigits (s : List Char) : List Char :=
  (s.reverse.takeWhile Char.isDigit).reverse

/-- `std::stoi` applied to such a digit-only suffix: it throws
`invalid_argument` on the empty string and `out_of_range` beyond `INT_MAX`
(both mapped to `none`, which the callers catch), otherwise parses the
decimal value. -/
def cppStoiDigits (s : List Char) : Option Int :=
  if s.isEmpty then none
  else
    let v : Nat := s.foldl (fun acc c => acc * 10 + (c.toNat - '0'.toNat)) 0
    if v ≤ 2147483647 then some (v : Int) else none

/-- The number extraction in `InputManager::sortReplications`
(src/lib/include/InputManager.h, lines 199-209): `-1` (the no-number marker)
when `stoi` throws. -/
def extractNumber (name : String) : Int :=
  match cppStoiDigits (trailingDigits name.toList) with
  | some n => n
  | none => -1

/-- `std::string::operator<`: lexicographic comparison on character
values. -/
def cppStringLt : List Char → List Char → Bool
  | [], [] => false
  | [], _ :: _ => true
  | _ :: _, [] => false
  | a :: as, b :: bs =>
      if a.toNat < b.toNat then true
      else if b.toNat < a.toNat then false
      else cppStringLt as bs

/-- The comparator passed to `std::sort` in `sortReplications`
(src/lib/include/InputManager.h, lines 211-217): compare by number when both
names have one, otherwise by name. -/
def repLess (a b : String) : Bool :=
  if extractNumber a ≠ -1 ∧ extractNumber b ≠ -1 then
    decide (extractNumber a < extractNumber b)
  else cppStringLt a.toList b.toList

/-- Ordered insertion used to model `std::sort`. -/
def insertBy (lt : String → String → Bool) (a : String) :
    List String → List String
  | [] => [a]
  | b :: bs => if lt a b then a :: b :: bs else b :: insertBy lt a bs

/-- A comparison sort with the comparator above.  `std::sort` promises a
sequence sorted with respect to the comparator; on inputs where `repLess`
is a strict *total* order (as on the names of claim C2, where no two
elements are comparator-equivalent) that output is unique, so any
comparison sort computes it. -/
def sortReplications (names : List String) : List String :=
  names.foldr (insertBy repLess) []

/-- Claim C2 (as stated) is false: on the discovered directory names
`Rep2, Rep10, Rep1, Foo` the comparator falls back to full-name
lexicographic order whenever either side lacks a trailing number, and
`"Foo" < "Rep1"` lexicographically, so `Foo` sorts *first*, not last: the
code produces `Foo, Rep1, Rep2, Rep10`, not `Rep1, Rep2, Rep10, Foo`. -/
theorem C2_counterexample :
    sortReplications ["Rep2", "Rep10", "Rep1", "Foo"] =
      ["Foo", "Rep1", "Rep2", "Rep10"] ∧
    sortReplications ["Rep2", "Rep10", "Rep1", "Foo"] ≠
      ["Rep1", "Rep2", "Rep10", "Foo"] := by
  constructor
  · rfl
  · decide

/-- All 24 enumeration orders of the four directory names of claim C2. -/
def c2EnumerationOrders : List (List String) :=
  [["Rep2", "Rep10", "Rep1", "Foo"],
   ["Rep2", "Rep10", "Foo", "Rep1"],
   ["Rep2", "Rep1", "Rep10", "Foo"],
   ["Rep2", "Rep1", "Foo", "Rep10"],
   ["Rep2", "Foo", "Rep10", "Rep1"],
   ["Rep2", "Foo", "Rep1", "Rep10"],
   ["Rep10", "Rep2", "Rep1", "Foo"],
   ["Rep10", "Rep2", "Foo", "Rep1"],
   ["Rep10", "Rep1", "Rep2", "Foo"],
   ["Rep10", "Rep1", "Foo", "Rep2"],
   ["Rep10", "Foo", "Rep2", "Rep1"],
   ["Rep10", "Foo", "Rep1", "Rep2"],
   ["Rep1", "Rep2", "Rep10", "Foo"],
   ["Rep1", "Rep2", "Foo", "Rep10"],
   ["Rep1", "Rep10", "Rep2", "Foo"],
   ["Rep1", "Rep10", "Foo", "Rep2"],
   ["Rep1", "Foo", "Rep2", "Rep10"],
   ["Rep1", "Foo", "Rep10", "Rep2"],
   ["Foo", "Rep2", "Rep10", "Rep1"],
   ["Foo", "Rep2", "Rep1", "Rep10"],
   ["Foo", "Rep10", "Rep2", "Rep1"],
   ["Foo", "Rep10", "Rep1", "Rep2"],
   ["Foo", "Rep1", "Rep2", "Rep10"],
   ["Foo", "Rep1", "Rep10", "Rep2"]]

/-- Claim C2, amended: whatever order discovery enumerates the
subdirectories `Rep2, Rep10, Rep1, Foo` in, `sortReplications` orders them
`Foo, Rep1, Rep2, Rep10`: numeric-keyed names ascending by key, and the
unkeyed `Foo` placed by the lexicographic fallback, which puts it before
every `Rep...` name. -/
theorem C2_sort_order :
    ∀ names ∈ c2EnumerationOrders,
      sortReplications names = ["Foo", "Rep1", "Rep2", "Rep10"] := by
  decide

/-- Witness for C2_sort_order at the enumeration order used by the spec's
test. -/
theorem C2_sort_order_witness :
    sortReplications ["Rep2", "Rep10", "Rep1", "Foo"] =
      ["Foo", "Rep1", "Rep2", "Rep10"] :=
  C2_sort_order ["Rep2", "Rep10", "Rep1", "Foo"] (by decide)

/-- The scan loop of `InputManager::loadBatch`
(src/lib/include/InputManager.h, lines 138-166) over the base directory's
subdirectory names: extract each trailing number, append the names whose
number lies in `[startv, endv]` to the replication collection, and abort
with "Failed processing file: ..." at the first name whose `stoi` throws
(the `catch (...)` block rethrows instead of skipping). -/
def loadBatchScan (startv endv : Int) :
    List String → List String → Except Err Unit × List String
  | [], reps => (.ok (), reps)
  | d :: ds, reps =>
      match cppStoiDigits (trailingDigits d.toList) with
      | none => (.error (.processingFailed d), reps)
      | some num =>
          if startv ≤ num ∧ num ≤ endv then
            loadBatchScan startv endv ds (reps ++ [d])
          else loadBatchScan startv endv ds reps

/-- `InputManager::loadBatch(start, end)` (src/lib/include/InputManager.h,
lines 131-167): throws `std::invalid_argument` before touching anything
when `end < start`, otherwise scans the subdirectories. -/
def loadBatch (startv endv : Int) (dirs reps : List String) :
    Except Err Unit × List String :=
  if endv < startv then (.error .invalidArgument, reps)
  else loadBatchScan startv endv dirs reps

/-- Helper for claim C9: a directory name without a trailing numeric suffix
makes the scan loop abort with a processing error naming such a
directory. -/
theorem loadBatchScan_aborts (startv endv : Int) :
    ∀ (dirs reps : List String),
      (∃ d ∈ dirs, cppStoiDigits (trailingDigits d.toList) = none) →
      ∃ d reps2, loadBatchScan startv endv dirs reps =
          (.error (.processingFailed d), reps2) ∧
        cppStoiDigits (trailingDigits d.toList) = none := by
  intro dirs
  induction dirs with
  | nil => intro reps ⟨d, hd, _⟩; exact absurd hd (List.not_mem_nil d)
  | cons d0 ds ih =>
      intro reps ⟨d, hd, hnone⟩
      cases hs : cppStoiDigits (trailingDigits d0.toList) with
      | none =>
          refine ⟨d0, reps, ?_, hs⟩
          simp only [loadBatchScan, hs]
      | some num =>
          have hd' : d ∈ ds := by
            rcases List.mem_cons.mp hd with h | h
            · subst h; rw [hs] at hnone; exact absurd hnone (by simp)
            · exact h
          by_cases hin : startv ≤ num ∧ num ≤ endv
          · obtain ⟨d1, r2, heq, hn⟩ := ih (reps ++ [d0]) ⟨d, hd', hnone⟩
            refine ⟨d1, r2, ?_, hn⟩
            simp only [loadBatchScan, hs]
            rw [if_pos hin]
            exact heq
          · obtain ⟨d1, r2, heq, hn⟩ := ih reps ⟨d, hd', hnone⟩
            refine ⟨d1, r2, ?_, hn⟩
            simp only [loadBatchScan, hs]
            rw [if_neg hin]
            exact heq

/-- Claim C9: `loadBatch(start, end)` raises `std::invalid_argument` and
leaves the replication collection untouched whenever `end < start`; and
whenever some scanned subdirectory name lacks a trailing numeric suffix, the
batch aborts with a processing error naming such a directory instead of
skipping it. -/
theorem C9_loadBatch (startv endv : Int) (dirs reps : List String) :
    (endv < startv →
       loadBatch startv endv dirs reps = (.error .invalidArgument, reps)) ∧
    (startv ≤ endv →
       (∃ d ∈ dirs, cppStoiDigits (trailingDigits d.toList) = none) →
       ∃ d reps2, loadBatch startv endv dirs reps =
           (.error (.processingFailed d), reps2) ∧
         cppStoiDigits (trailingDigits d.toList) = none) := by
  constructor
  · intro hlt
    rw [loadBatch, if_pos hlt]
  · intro hle hbad
    obtain ⟨d, r2, heq, hn⟩ := loadBatchScan_aborts startv endv dirs reps hbad
    refine ⟨d, r2, ?_, hn⟩
    rw [loadBatch, if_neg (by omega)]
    exact heq

/-- Witness for C9_loadBatch: the range `[1, 3]` over directories
`Rep1, Foo` aborts at `Foo` (which has no trailing number) after having
taken `Rep1`. -/
theorem C9_loadBatch_witness :
    (loadBatch 3 1 ["Rep1"] [] = (.error .invalidArgument, [])) ∧
    ∃ d reps2, loadBatch 1 3 ["Rep1", "Foo"] [] =
        (.error (.processingFailed d), reps2) ∧
      cppStoiDigits (trailingDigits d.toList) = none :=
  ⟨(C9_loadBatch 3 1 ["Rep1"] []).1 (by norm_num),
   (C9_loadBatch 1 3 ["Rep1", "Foo"] []).2 (by norm_num)
     ⟨"Foo", by decide, by decide⟩⟩

/-! ## The casino statistics classes (claims C8 and C10)

`CasinoBinStatistics` (src/include/CasinoBinStatistics.h) and
`CasinoStatistics` (src/include/CasinoStatistics.h) hold the same private
state `std::vector<arma::vec> armaVecs`, sized to 5 empty vectors by their
constructors, and their `getMean` bodies are token-identical, so one
embedding serves both.  `double` arithmetic is abstracted by exact `ℚ`
arithmetic; `arma::mean` of a nonempty vector is its sum divided by its
element count. -/

/-- The per-channel aggregate vectors of a casino statistics instance. -/
structure CasinoStatisticsData where
  armaVecs : List (List ℚ)
deriving DecidableEq, Repr

/-- The constructor state: `armaVecs.resize(5, arma::vec())`. -/
def freshCasinoStatistics : CasinoStatisticsData :=
  ⟨List.replicate 5 []⟩

/-- `CasinoBinStatistics::getMean` (src/include/CasinoBinStatistics.h,
lines 70-77) and the identical `CasinoStatistics::getMean`
(src/include/CasinoStatistics.h, lines 55-62): 0.0 when the index is out of
range or the vector is empty, else `arma::mean(armaVecs[index])`. -/
def getMean (st : CasinoStatisticsData) (index : Nat) : ℚ :=
  if h : index < st.armaVecs.length then
    if (st.armaVecs.get ⟨index, h⟩).isEmpty then 0
    else (st.armaVecs.get ⟨index, h⟩).sum /
      ((st.armaVecs.get ⟨index, h⟩).length : ℚ)
  else 0

/-- Claim C8: `getMean` is total (never raises): it returns 0 for every
out-of-range index and for every empty channel vector, returns the
arithmetic mean (sum over count) for a nonempty in-range vector, and on a
fresh, never-loaded instance — whose channel count is the fixed 5 — it
returns 0 for every valid and invalid index alike. -/
theorem C8_getMean (st : CasinoStatisticsData) (index : Nat) :
    (st.armaVecs.length ≤ index → getMean st index = 0) ∧
    (∀ h : index < st.armaVecs.length,
       st.armaVecs.get ⟨index, h⟩ = [] → getMean st index = 0) ∧
    (∀ h : index < st.armaVecs.length,
       st.armaVecs.get ⟨index, h⟩ ≠ [] →
         getMean st index = (st.armaVecs.get ⟨index, h⟩).sum /
           ((st.armaVecs.get ⟨index, h⟩).length : ℚ)) ∧
    freshCasinoStatistics.armaVecs.length = 5 ∧
    getMean freshCasinoStatistics index = 0 := by
  refine ⟨?_, ?_, ?_, rfl, ?_⟩
  · intro hge
    rw [getMean, dif_neg (by omega)]
  · intro h hempty
    rw [getMean, dif_pos h, if_pos (by rw [hempty]; rfl)]
  · intro h hne
    rw [getMean, dif_pos h, if_neg (by
      cases hv : st.armaVecs.get ⟨index, h⟩ with
      | nil => exact absurd hv hne
      | cons x xs => simp)]
  · rw [getMean]
    by_cases h : index < freshCasinoStatistics.armaVecs.length
    · rw [dif_pos h, if_pos]
      have : freshCasinoStatistics.armaVecs.get ⟨index, h⟩ = [] := by
        simp only [freshCasinoStatistics, List.get_eq_getElem,
          List.getElem_replicate]
      rw [this]
      rfl
    · rw [dif_neg h]

/-- Witness for C8_getMean: the mean of the singleton channel state
`[[1, 3]]` at index 0, and the fresh instance at the invalid index 7. -/
theorem C8_getMean_witness :
    getMean ⟨[[(1 : ℚ), 3]]⟩ 0 =
      ([(1 : ℚ), 3].sum / (([(1 : ℚ), 3].length : ℚ))) ∧
    getMean freshCasinoStatistics 7 = 0 :=
  ⟨(C8_getMean ⟨[[(1 : ℚ), 3]]⟩ 0).2.2.1 (by norm_num) (by simp),
   (C8_getMean freshCasinoStatistics 7).2.2.2.2⟩

/-- The observable content the casino `setupPresenters` overrides push into
the three views: the five channel means scaled by 100 (string formatting of
the text and table cells is abstracted to the numbers being formatted). -/
structure PresenterViews where
  textData : List ℚ
  tableData : List ℚ
  graphData : List ℚ
  graphTitle : String
deriving DecidableEq, Repr

/-- The view contents both overrides build from `getMean 0 .. getMean 4`. -/
def casinoSetupViews (st : CasinoStatisticsData) : PresenterViews :=
  { textData := [getMean st 0 * 100, getMean st 1 * 100, getMean st 2 * 100,
      getMean st 3 * 100, getMean st 4 * 100],
    tableData := [getMean st 0 * 100, getMean st 1 * 100, getMean st 2 * 100,
      getMean st 3 * 100, getMean st 4 * 100],
    graphData := [getMean st 0 * 100, getMean st 1 * 100, getMean st 2 * 100,
      getMean st 3 * 100, getMean st 4 * 100],
    graphTitle := "Casino Game Win Rates" }

/-- The base `Statistics::setupPresenters` (src/lib/include/Statistics.h,
lines 132-137): `if (!manager) throw std::invalid_argument(...)`, then the
default empty implementation. -/
def statisticsSetupPresenters (managerPresent : Bool) : Except Err Unit :=
  if managerPresent = false then .error .invalidArgument else .ok ()

/-- `CasinoBinStatistics::setupPresenters`
(src/include/CasinoBinStatistics.h, lines 83-136): no null check — the very
first statement is `manager->createTextPresenter()`, so an absent manager is
dereferenced (undefined behaviour), not rejected with
`std::invalid_argument`. -/
def casinoBinStatisticsSetupPresenters (st : CasinoStatisticsData)
    (managerPresent : Bool) : Except Err PresenterViews :=
  if managerPresent = false then .error .nullDereference
  else .ok (casinoSetupViews st)

/-- `CasinoStatistics::setupPresenters` (src/include/CasinoStatistics.h,
lines 65-114): same structure, same missing null check. -/
def casinoStatisticsSetupPresenters (st : CasinoStatisticsData)
    (managerPresent : Bool) : Except Err PresenterViews :=
  if managerPresent = false then .error .nullDereference
  else .ok (casinoSetupViews st)

/-- Claim C10's failing input evaluated on the code: the base class does
raise `std::invalid_argument` on an absent manager, but both casino
overrides — which replace the base implementation outright — dereference the
absent handle instead, which is not an invalid-argument error (nor any
raised exception). -/
theorem C10_null_manager :
    statisticsSetupPresenters false = .error .invalidArgument ∧
    casinoBinStatisticsSetupPresenters freshCasinoStatistics false =
      .error .nullDereference ∧
    casinoStatisticsSetupPresenters freshCasinoStatistics false =
      .error .nullDereference ∧
    casinoBinStatisticsSetupPresenters freshCasinoStatistics false ≠
      .error .invalidArgument ∧
    casinoStatisticsSetupPresenters freshCasinoStatistics false ≠
      .error .invalidArgument := by
  refine ⟨rfl, rfl, rfl, ?_, ?_⟩ <;>
    · intro h
      simp [casinoBinStatisticsSetupPresenters,
        casinoStatisticsSetupPresenters] at h

end StatLib
